import Mathlib

/-!
# go-adodb: the ADO adapter for database/sql

A shallow embedding of `adodb.go`.  The automation layer (go-ole) is outside the
repository; every automation object is modelled by the replies it gives to the calls
the adapter makes on it.  A call `oleutil.CallMethod` / `oleutil.GetProperty` that
returns `(result, err)` is an `Except OleError VARIANT` (or the object the result
variant points to).  Go's `int` is taken to be 64 bits wide.
-/

namespace Adodb

/-! ## Values crossing the automation boundary -/

/-- The fields of an `ole.SAFEARRAY` that the adapter reads: the data pointer `Data` and
the element count `Bounds.Elements`. -/
structure SAFEARRAY where
  Data : Nat
  Elements : Nat
deriving DecidableEq

/-- The `ole.VARIANT` fields the adapter reads: the tag `VT`, the 64-bit payload `Val`
(an `int64`), and what the payload points to when it is read as an address: `str`, the
text that `ToString()` yields for this variant, and `safeArray`, the `SAFEARRAY` struct
at that address, `none` when no such struct can be read there. -/
structure VARIANT where
  VT : Nat
  Val : Int
  str : String
  safeArray : Option SAFEARRAY
deriving DecidableEq

/-- An error reported by the automation layer (`*ole.OleError`), identified by its code. -/
structure OleError where
  hr : Int
deriving DecidableEq

/-- The values of Go's `error` interface that the adapter can return, apart from `nil`:
the sentinel `io.EOF`, or an automation error passed through. -/
inductive GoError
  | EOF
  | ole (e : OleError)
deriving DecidableEq

/-- How a Go function call ends: it returns `nil`, it returns an error, or it does not
return (a run-time panic or a memory fault). -/
inductive Ret
  | ok
  | error (e : GoError)
  | panic
deriving DecidableEq

/-- A `float64` result, denoted by the floating-point computation that produces it. -/
inductive F64
  | frombits (b : Nat)
  | from32bits (b : Nat)
  | ofInt (v : Int)
  | div (x y : F64)
  | pow10 (y : F64)
deriving DecidableEq

/-- A `time.Time` in `time.Local`, given by its wall-clock reading. -/
structure Time where
  year : Int
  month : Int
  day : Int
  hour : Int
  minute : Int
  second : Int
  nsec : Int
deriving DecidableEq

/-- A `driver.Value` (Go `interface{}`) as stored in a destination slot.  `time none`
is a timestamp outside the modelled range (see `decodeDate`); `bytes data len` is the
`[]byte` slice of length `len` over the memory at address `data`. -/
inductive Value
  | null
  | int64 (v : Int)
  | float64 (f : F64)
  | time (t : Option Time)
  | str (s : String)
  | dispatch (ptr : Nat)
  | unknown (ptr : Nat)
  | bool (b : Bool)
  | variant (v : VARIANT)
  | int8 (v : Int)
  | uint8 (v : Nat)
  | uint16 (v : Nat)
  | uint32 (v : Nat)
  | bigInt (v : Int)
  | bytes (data : Nat) (len : Nat)
  | uintptr (v : Nat)
deriving DecidableEq

/-! ## Integer conversions -/

/-- Go conversion `uint64(x)`. -/
def uint64 (x : Int) : Nat := (x % 18446744073709551616).toNat

/-- Go conversion `uint32(x)`. -/
def uint32 (x : Int) : Nat := (x % 4294967296).toNat

/-- Go conversion `uint16(x)`. -/
def uint16 (x : Int) : Nat := (x % 65536).toNat

/-- Go conversion `uint8(x)`. -/
def uint8 (x : Int) : Nat := (x % 256).toNat

/-- Go conversion `int32(x)`: the low 32 bits read as two's complement. -/
def int32 (x : Int) : Int :=
  if x % 4294967296 < 2147483648 then x % 4294967296 else x % 4294967296 - 4294967296

/-- Go conversion `int16(x)`: the low 16 bits read as two's complement. -/
def int16 (x : Int) : Int :=
  if x % 65536 < 32768 then x % 65536 else x % 65536 - 65536

/-- Go conversion `int8(x)`: the low 8 bits read as two's complement. -/
def int8 (x : Int) : Int :=
  if x % 256 < 128 then x % 256 else x % 256 - 256

/-! ## Finite doubles, as far as the date decoders use them -/

/-- A finite IEEE-754 double, `(-1)^neg * man * 2^exp`. -/
structure Float64 where
  neg : Bool
  man : Nat
  exp : Int
deriving DecidableEq

/-- Go `math.Float64frombits` on finite patterns; `none` for NaN and the infinities. -/
def Float64frombits (b : Nat) : Option Float64 :=
  if b / 2 ^ 52 % 2048 = 2047 then none
  else if b / 2 ^ 52 % 2048 = 0 then some ⟨b / 2 ^ 63 % 2 == 1, b % 2 ^ 52, -1074⟩
  else some ⟨b / 2 ^ 63 % 2 == 1, 2 ^ 52 + b % 2 ^ 52, (b / 2 ^ 52 % 2048 : Nat) - 1075⟩

/-- Go `math.Modf`: the integer part and the fractional part, both with the sign of `x`. -/
def Modf (x : Float64) : Float64 × Float64 :=
  if 0 ≤ x.exp then (x, ⟨x.neg, 0, 0⟩)
  else (⟨x.neg, x.man / 2 ^ (-x.exp).toNat, 0⟩, ⟨x.neg, x.man % 2 ^ (-x.exp).toNat, x.exp⟩)

/-- Go `math.Abs`. -/
def Abs (x : Float64) : Float64 := ⟨false, x.man, x.exp⟩

/-- Number of binary digits of `n`, counted with at most `fuel` halvings. -/
def bitLenAux : Nat → Nat → Nat
  | 0, _ => 0
  | fuel + 1, n => if n = 0 then 0 else bitLenAux fuel (n / 2) + 1

/-- Number of binary digits of `n` (`n` halvings always suffice). -/
def bitLen (n : Nat) : Nat := bitLenAux n n

/-- Rounding of an exact dyadic value to 53 significant bits, ties to even. -/
def roundNearestEven (x : Float64) : Float64 :=
  let k := bitLen x.man - 53
  if k = 0 then x
  else if 2 ^ (k - 1) < x.man % 2 ^ k ∨ (x.man % 2 ^ k = 2 ^ (k - 1) ∧ x.man / 2 ^ k % 2 = 1)
    then ⟨x.neg, x.man / 2 ^ k + 1, x.exp + k⟩
    else ⟨x.neg, x.man / 2 ^ k, x.exp + k⟩

/-- The float product `x * c` for a constant `c` that is an exact small integer. -/
def mulConst (x : Float64) (c : Nat) : Float64 := roundNearestEven ⟨x.neg, x.man * c, x.exp⟩

/-- Go conversion `int(x)` of a double: truncation toward zero; `none` where the value
does not fit an `int64` (the result is then implementation-dependent). -/
def toInt (x : Float64) : Option Int :=
  let m : Int := if 0 ≤ x.exp then x.man * 2 ^ x.exp.toNat else x.man / 2 ^ (-x.exp).toNat
  let v : Int := if x.neg then -m else m
  if -9223372036854775808 ≤ v ∧ v < 9223372036854775808 then some v else none

/-! ## time.Date -/

/-- Days from 1970-01-01 to the given proleptic Gregorian date (`1 ≤ m ≤ 12`). -/
def daysFromCivil (y m d : Int) : Int :=
  let y1 := if m ≤ 2 then y - 1 else y
  let era := y1 / 400
  let yoe := y1 - era * 400
  let doy := (153 * (if 2 < m then m - 3 else m + 9) + 2) / 5 + d - 1
  era * 146097 + (yoe * 365 + yoe / 4 - yoe / 100 + doy) - 719468

/-- The proleptic Gregorian date `(year, month, day)` that lies `z` days after 1970-01-01. -/
def civilFromDays (z : Int) : Int × Int × Int :=
  let z1 := z + 719468
  let era := z1 / 146097
  let doe := z1 - era * 146097
  let yoe := (doe - doe / 1460 + doe / 36524 - doe / 146096) / 365
  let doy := doe - (365 * yoe + yoe / 4 - yoe / 100)
  let mp := (5 * doy + 2) / 153
  let m := if mp < 10 then mp + 3 else mp - 9
  ((if m ≤ 2 then yoe + era * 400 + 1 else yoe + era * 400), m, doy - (153 * mp + 2) / 5 + 1)

/-- Go `time.Date(year, month, day, hour, min, sec, nsec, time.Local)`: out-of-range
fields are normalised by carrying into the next larger unit.  The result is the
wall-clock reading of the time in the local zone (a reading that a zone transition
skips is not modelled).  `none` outside the range `|day|, |sec| ≤ 2^32`, where the model
does not follow Go's wrap-around arithmetic. -/
def timeDate (year month day hour min sec nsec : Int) : Option Time :=
  if day < -4294967296 ∨ 4294967296 < day ∨ sec < -4294967296 ∨ 4294967296 < sec then none
  else
    let year1 := year + (month - 1) / 12
    let month1 := (month - 1) % 12 + 1
    let sec1 := sec + nsec / 1000000000
    let min1 := min + sec1 / 60
    let hour1 := hour + min1 / 60
    let day1 := day + hour1 / 24
    let ymd := civilFromDays (daysFromCivil year1 month1 1 + (day1 - 1))
    some ⟨ymd.1, ymd.2.1, ymd.2.2, hour1 % 24, min1 % 60, sec1 % 60, nsec % 1000000000⟩

/-- Type codes 7 and 135 (lines 320-322, 372-374): the payload is a double whose integer
part counts days from 1899-12-30 and whose fraction is the time of day. -/
def decodeDate (val : Int) : Option Time :=
  match Float64frombits (uint64 val) with
  | none => none
  | some f =>
    match toInt (Modf f).1, toInt (mulConst (Abs (Modf f).2) 86400) with
    | some d, some t => timeDate 1899 12 (30 + d) 0 0 t 0
    | _, _ => none

/-- Type code 133 (lines 366-367): the day serial only. -/
def decodeDBDate (val : Int) : Option Time :=
  match Float64frombits (uint64 val) with
  | none => none
  | some f =>
    match toInt f with
    | some d => timeDate 1899 12 (30 + d) 0 0 0 0
    | none => none

/-- Type code 134 (lines 369-370): the fraction of a day only. -/
def decodeDBTime (val : Int) : Option Time :=
  match Float64frombits (uint64 val) with
  | none => none
  | some f =>
    match toInt (mulConst f 86400) with
    | some t => timeDate 0 1 1 0 0 t 0
    | none => none

/-! ## The automation objects behind a result cursor -/

/-- A `Field` object of the recordset: its replies to the property reads of the
adapter.  `getNumericScale` is the result pointer of that read, `none` for `nil`; the
adapter discards the error of this one read (line 299). -/
structure FieldObj where
  getName : Except OleError VARIANT
  getType : Except OleError VARIANT
  getValue : Except OleError VARIANT
  getNumericScale : Option VARIANT

/-- The `Fields` collection: its `Count` property and the reply of `Item(i)`. -/
structure FieldsObj where
  getCount : Except OleError VARIANT
  callItem : Int → Except OleError FieldObj

/-- The `Recordset` object positioned on the current row. -/
structure RecordsetObj where
  getEOF : Except OleError VARIANT
  getFields : Except OleError FieldsObj
  callMoveNext : Except OleError VARIANT

/-! ## AdodbRows.Next -/

/-- The struct `AdodbRows` (lines 215-220): the recordset handle `rc`, the cached column
count `nc` and the cached names `cols` (a nil slice is the empty list).  The back
pointer `s` is not read by any method. -/
structure AdodbRows where
  rc : RecordsetObj
  nc : Int
  cols : List String

/-- What the body of the column loop of `Next` does for one column: assign a value to
the slot, leave the slot alone, return an automation error, or not return at all. -/
inductive Step
  | assign (v : Value)
  | keep
  | fail (e : OleError)
  | panic
deriving DecidableEq

/-- Go conversion `uintptr(x)` on a 64-bit platform. -/
def uintptr (x : Int) : Nat := uint64 x

/-- Type codes 14 and 131 (lines 336-337, 360-361); `sc.Val` dereferences the result
pointer of the `NumericScale` read. -/
def decodeDecimal (val : VARIANT) (sc : Option VARIANT) : Step :=
  match sc with
  | none => Step.panic
  | some s => Step.assign (Value.float64 (F64.div (F64.ofInt val.Val) (F64.pow10 (F64.ofInt s.Val))))

/-- Type codes 128 and 205 (lines 353-354, 388-389): the payload is cast to a
`*ole.SAFEARRAY` and read through, its `Data` is cast to a `*[1 << 30]byte`, and that
array is sliced `[0:sa.Bounds.Elements]`.  The code does not return when the handle is
nil or unreadable, when `Data` is nil, or when the bound exceeds `1 << 30`. -/
def decodeBinary (val : VARIANT) : Step :=
  if uintptr val.Val = 0 then Step.panic
  else
    match val.safeArray with
    | none => Step.panic
    | some sa =>
      if sa.Data = 0 ∨ 1073741824 < sa.Elements then Step.panic
      else Step.assign (Value.bytes sa.Data sa.Elements)

/-- The `switch typ.Val` of `Next` (lines 305-390), applied to a non-null value. -/
def decode (typ : Int) (val : VARIANT) (sc : Option VARIANT) : Step :=
  match typ with
  | 0 => Step.assign Value.null
  | 2 => Step.assign (Value.int64 (int16 val.Val))
  | 3 => Step.assign (Value.int64 (int32 val.Val))
  | 4 => Step.assign (Value.float64 (F64.from32bits (uint32 val.Val)))
  | 5 => Step.assign (Value.float64 (F64.frombits (uint64 val.Val)))
  | 6 => Step.assign (Value.float64 (F64.div (F64.ofInt val.Val) (F64.ofInt 10000)))
  | 7 => Step.assign (Value.time (decodeDate val.Val))
  | 8 => Step.assign (Value.str val.str)
  | 9 => Step.assign (Value.dispatch (uintptr val.Val))
  | 10 => Step.keep
  | 11 => Step.assign (Value.bool (decide (val.Val ≠ 0)))
  | 12 => Step.assign (Value.variant val)
  | 13 => Step.assign (Value.unknown (uintptr val.Val))
  | 14 => decodeDecimal val sc
  | 16 => Step.assign (Value.int8 (int8 val.Val))
  | 17 => Step.assign (Value.uint8 (uint8 val.Val))
  | 18 => Step.assign (Value.uint16 (uint16 val.Val))
  | 19 => Step.assign (Value.uint32 (uint32 val.Val))
  | 20 => Step.assign (Value.bigInt val.Val)
  | 21 => Step.keep
  | 72 => Step.assign (Value.str val.str)
  | 128 => decodeBinary val
  | 129 => Step.assign (Value.str val.str)
  | 130 => Step.assign (Value.str val.str)
  | 131 => decodeDecimal val sc
  | 132 => Step.assign (Value.uintptr (uintptr val.Val))
  | 133 => Step.assign (Value.time (decodeDBDate val.Val))
  | 134 => Step.assign (Value.time (decodeDBTime val.Val))
  | 135 => Step.assign (Value.time (decodeDate val.Val))
  | 136 => Step.assign (Value.str val.str)
  | 200 => Step.assign (Value.str val.str)
  | 201 => Step.assign (Value.str val.str)
  | 202 => Step.assign (Value.str val.str)
  | 203 => Step.assign (Value.str val.str)
  | 204 => Step.keep
  | 205 => decodeBinary val
  | _ => Step.keep

/-- The body of the loop `for i := range dest` of `Next` (lines 282-390) for column `i`:
`Fields.Item(i)`, then the reads of `Type`, `Value` and `NumericScale`, the null test on
the value's tag, and the type switch. -/
def column (fields : FieldsObj) (i : Nat) : Step :=
  match fields.callItem i with
  | Except.error e => Step.fail e
  | Except.ok field =>
    match field.getType with
    | Except.error e => Step.fail e
    | Except.ok typ =>
      match field.getValue with
      | Except.error e => Step.fail e
      | Except.ok val =>
        if val.VT = 1 then Step.assign Value.null
        else decode typ.Val val field.getNumericScale

/-- The loop `for i := range dest` over the remaining indices `is`: the first failing
column ends the call, the others update their own slot. -/
def columnLoop (fields : FieldsObj) : List Nat → List Value → Ret × List Value
  | [], dest => (Ret.ok, dest)
  | i :: is, dest =>
    match column fields i with
    | Step.assign v => columnLoop fields is (dest.set i v)
    | Step.keep => columnLoop fields is dest
    | Step.fail e => (Ret.error (GoError.ole e), dest)
    | Step.panic => (Ret.panic, dest)

/-- The method `AdodbRows.Next` (lines 267-397): the returned error and the contents of
`dest` after the call.  The receiver is not modified. -/
def Next (rc : AdodbRows) (dest : List Value) : Ret × List Value :=
  match rc.rc.getEOF with
  | Except.error _ => (Ret.error GoError.EOF, dest)
  | Except.ok unknown =>
    if unknown.Val ≠ 0 then (Ret.error GoError.EOF, dest)
    else
      match rc.rc.getFields with
      | Except.error e => (Ret.error (GoError.ole e), dest)
      | Except.ok fields =>
        match columnLoop fields (List.range dest.length) dest with
        | (Ret.ok, dest1) =>
          match rc.rc.callMoveNext with
          | Except.error e => (Ret.error (GoError.ole e), dest1)
          | Except.ok _ => (Ret.ok, dest1)
        | r => r

/-! ## The calls made on the automation layer -/

/-- The automation objects the adapter talks to. -/
inductive Obj
  | command
  | parameters
  | parameter (i : Nat)
  | recordset
  | fields
  | field (i : Nat)
deriving DecidableEq

/-- An argument of an automation call. -/
inductive Arg
  | str (s : String)
  | int (n : Int)
  | i4 (n : Int)
  | value (v : Value)
  | obj (o : Obj)
deriving DecidableEq

/-- One call into the automation layer, in the order the adapter makes them. -/
inductive Event
  | callMethod (o : Obj) (name : String) (args : List Arg)
  | getProperty (o : Obj) (name : String)
  | putProperty (o : Obj) (name : String) (arg : Arg)
  | release (o : Obj)
deriving DecidableEq

/-! ## AdodbRows.Columns -/

/-- The loop `for i := 0; i < rc.nc; i++` of `Columns` (lines 244-262) over the remaining
indices: whether it ran to the end, the contents of `rc.cols`, and the calls made. -/
def readNames (fields : FieldsObj) : List Nat → List String → Bool × List String × List Event
  | [], cols => (true, cols, [])
  | i :: is, cols =>
    match fields.callItem i with
    | Except.error _ => (false, cols, [Event.callMethod Obj.fields "Item" [Arg.i4 i]])
    | Except.ok item =>
      match item.getName with
      | Except.error _ =>
        (false, cols,
          [Event.callMethod Obj.fields "Item" [Arg.i4 i], Event.getProperty (Obj.field i) "Name"])
      | Except.ok name =>
        ((readNames fields is (cols.set i name.str)).1,
          (readNames fields is (cols.set i name.str)).2.1,
          [Event.callMethod Obj.fields "Item" [Arg.i4 i], Event.getProperty (Obj.field i) "Name",
            Event.release (Obj.field i)] ++ (readNames fields is (cols.set i name.str)).2.2)

/-- The method `AdodbRows.Columns` (lines 230-265): the returned slice (`none` when
`make` panics on a negative length; allocation limits are not modelled), the receiver
after the call, and the calls made, the deferred `fields.Release()` last. -/
def Columns (rc : AdodbRows) : Option (List String) × AdodbRows × List Event :=
  if rc.nc ≠ rc.cols.length then
    match rc.rc.getFields with
    | Except.error _ => (some [], rc, [Event.getProperty Obj.recordset "Fields"])
    | Except.ok fields =>
      match fields.getCount with
      | Except.error _ =>
        (some [], rc, [Event.getProperty Obj.recordset "Fields",
          Event.getProperty Obj.fields "Count", Event.release Obj.fields])
      | Except.ok val =>
        if val.Val < 0 then
          (none, ⟨rc.rc, val.Val, rc.cols⟩, [Event.getProperty Obj.recordset "Fields",
            Event.getProperty Obj.fields "Count", Event.release Obj.fields])
        else
          ((if (readNames fields (List.range val.Val.toNat) (List.replicate val.Val.toNat "")).1
              then some (readNames fields (List.range val.Val.toNat)
                (List.replicate val.Val.toNat "")).2.1
              else some []),
            ⟨rc.rc, val.Val,
              (readNames fields (List.range val.Val.toNat) (List.replicate val.Val.toNat "")).2.1⟩,
            [Event.getProperty Obj.recordset "Fields", Event.getProperty Obj.fields "Count"]
              ++ (readNames fields (List.range val.Val.toNat)
                (List.replicate val.Val.toNat "")).2.2
              ++ [Event.release Obj.fields])
  else (some rc.cols, rc, [])

/-! ## AdodbStmt -/

/-- A `Parameter` object: its reply to `PutProperty(param, "Value", v)`. -/
structure ParameterObj where
  putValue : Value → Except OleError VARIANT

/-- The `Parameters` collection of a command.  `getCount` is the reply to the `Count`
read that follows `Refresh`; `callAppend i` is the reply to `Append` of the parameter
created for argument `i`. -/
structure ParametersObj where
  callRefresh : Except OleError VARIANT
  getCount : Except OleError VARIANT
  callAppend : Nat → Except OleError VARIANT
  callItem : Int → Except OleError ParameterObj

/-- The `Command` object: `CreateParameter(name, type, direction)` and `Execute`. -/
structure CommandObj where
  callCreateParameter : String → Int → Int → Except OleError ParameterObj
  callExecute : Except OleError RecordsetObj

/-- The struct `AdodbStmt` (lines 86-91): the command handle `s`, its parameter
collection `ps`, and the bound names `b` (`none` is the nil slice).  The connection
pointer `c` is not read by the methods below. -/
structure AdodbStmt where
  s : CommandObj
  ps : ParametersObj
  b : Option (List String)

/-- The method `AdodbStmt.Bind` (lines 125-128). -/
def Bind (s : AdodbStmt) (bind : Option (List String)) : AdodbStmt × Ret :=
  (⟨s.s, s.ps, bind⟩, Ret.ok)

/-- The method `AdodbStmt.NumInput` (lines 135-149): the result and the calls made. -/
def NumInput (s : AdodbStmt) : Int × List Event :=
  match s.b with
  | some b => (b.length, [])
  | none =>
    match s.ps.callRefresh with
    | Except.error _ => (-1, [Event.callMethod Obj.parameters "Refresh" []])
    | Except.ok _ =>
      match s.ps.getCount with
      | Except.error _ =>
        (-1, [Event.callMethod Obj.parameters "Refresh" [],
          Event.getProperty Obj.parameters "Count"])
      | Except.ok val =>
        (val.Val, [Event.callMethod Obj.parameters "Refresh" [],
          Event.getProperty Obj.parameters "Count"])

/-- The name chosen for argument `i` in the first branch of `bind` (lines 154-157):
`"?"`, replaced by `s.b[i]` under the guard `len(s.b) < i`; `none` when the index
expression `s.b[i]` is out of range, which panics. -/
def bindName (b : List String) (i : Nat) : Option String :=
  if b.length < i then b[i]? else some "?"

/-- The first loop of `bind` (lines 153-172) from argument `i` on: how it ends, the
calls made, and the parameters whose `Release` was deferred, in the order in which the
deferred calls run. -/
def bindNamed (s : CommandObj) (ps : ParametersObj) (b : List String) :
    Nat → List Value → Ret × List Event × List Obj
  | _, [] => (Ret.ok, [], [])
  | i, v :: vs =>
    match bindName b i with
    | none => (Ret.panic, [], [])
    | some name =>
      match s.callCreateParameter name 12 1 with
      | Except.error e =>
        (Ret.error (GoError.ole e),
          [Event.callMethod Obj.command "CreateParameter" [Arg.str name, Arg.int 12, Arg.int 1]],
          [])
      | Except.ok param =>
        match param.putValue v with
        | Except.error e =>
          (Ret.error (GoError.ole e),
            [Event.callMethod Obj.command "CreateParameter" [Arg.str name, Arg.int 12, Arg.int 1],
              Event.putProperty (Obj.parameter i) "Value" (Arg.value v)],
            [Obj.parameter i])
        | Except.ok _ =>
          match ps.callAppend i with
          | Except.error e =>
            (Ret.error (GoError.ole e),
              [Event.callMethod Obj.command "CreateParameter" [Arg.str name, Arg.int 12, Arg.int 1],
                Event.putProperty (Obj.parameter i) "Value" (Arg.value v),
                Event.callMethod Obj.parameters "Append" [Arg.obj (Obj.parameter i)]],
              [Obj.parameter i])
          | Except.ok _ =>
            ((bindNamed s ps b (i + 1) vs).1,
              [Event.callMethod Obj.command "CreateParameter" [Arg.str name, Arg.int 12, Arg.int 1],
                Event.putProperty (Obj.parameter i) "Value" (Arg.value v),
                Event.callMethod Obj.parameters "Append" [Arg.obj (Obj.parameter i)]]
                ++ (bindNamed s ps b (i + 1) vs).2.1,
              (bindNamed s ps b (i + 1) vs).2.2 ++ [Obj.parameter i])

/-- The second loop of `bind` (lines 174-188), the positional mode, from argument `i` on. -/
def bindPositional (ps : ParametersObj) : Nat → List Value → Ret × List Event × List Obj
  | _, [] => (Ret.ok, [], [])
  | i, v :: vs =>
    match ps.callItem i with
    | Except.error e =>
      (Ret.error (GoError.ole e), [Event.callMethod Obj.parameters "Item" [Arg.i4 i]], [])
    | Except.ok item =>
      match item.putValue v with
      | Except.error e =>
        (Ret.error (GoError.ole e),
          [Event.callMethod Obj.parameters "Item" [Arg.i4 i],
            Event.putProperty (Obj.parameter i) "Value" (Arg.value v)],
          [Obj.parameter i])
      | Except.ok _ =>
        ((bindPositional ps (i + 1) vs).1,
          [Event.callMethod Obj.parameters "Item" [Arg.i4 i],
            Event.putProperty (Obj.parameter i) "Value" (Arg.value v)]
            ++ (bindPositional ps (i + 1) vs).2.1,
          (bindPositional ps (i + 1) vs).2.2 ++ [Obj.parameter i])

/-- The method `AdodbStmt.bind` (lines 151-191): how it ends and the calls made, the
deferred releases last. -/
def bind (s : AdodbStmt) (args : List Value) : Ret × List Event :=
  match s.b with
  | some b =>
    ((bindNamed s.s s.ps b 0 args).1,
      (bindNamed s.s s.ps b 0 args).2.1 ++ (bindNamed s.s s.ps b 0 args).2.2.map Event.release)
  | none =>
    ((bindPositional s.ps 0 args).1,
      (bindPositional s.ps 0 args).2.1 ++ (bindPositional s.ps 0 args).2.2.map Event.release)

/-- The method `AdodbStmt.Query` (lines 193-202): the rows returned (`none` for a nil
result), how the call ends, and the calls made. -/
def Query (s : AdodbStmt) (args : List Value) : Option AdodbRows × Ret × List Event :=
  match bind s args with
  | (Ret.ok, evs) =>
    match s.s.callExecute with
    | Except.error e =>
      (none, Ret.error (GoError.ole e), evs ++ [Event.callMethod Obj.command "Execute" []])
    | Except.ok rc =>
      (some ⟨rc, -1, []⟩, Ret.ok, evs ++ [Event.callMethod Obj.command "Execute" []])
  | (r, evs) => (none, r, evs)

/-- The content of a slot after a column step: the assigned value, or the old one. -/
def Step.apply (st : Step) (old : Value) : Value :=
  match st with
  | Step.assign v => v
  | _ => old

/-- The column step lets the loop go on to the next column. -/
def Step.continues (st : Step) : Bool :=
  match st with
  | Step.assign _ => true
  | Step.keep => true
  | _ => false

/-- A field object with the given type code, value tag and payload; its scale reads 0. -/
def exampleField (typ : Int) (vt : Nat) (val : Int) : FieldObj :=
  ⟨Except.ok ⟨8, 0, "c", none⟩, Except.ok ⟨3, typ, "", none⟩, Except.ok ⟨vt, val, "", none⟩, some ⟨3, 0, "", none⟩⟩

/-- A binary field (type code 128) whose value points to a safe array of three bytes. -/
def binaryField : FieldObj :=
  ⟨Except.ok ⟨8, 0, "c", none⟩, Except.ok ⟨3, 128, "", none⟩,
    Except.ok ⟨8209, 4096, "", some ⟨8192, 3⟩⟩, some ⟨3, 0, "", none⟩⟩

/-- The fields of the example row: a small int with payload `0xFFFF`, an error-code
column (type 10), a date with payload 44562.0, a null integer column, and a binary
column; `Item` fails for every other index. -/
def exampleFields : FieldsObj :=
  ⟨Except.ok ⟨3, 5, "", none⟩, fun i =>
    if i = 0 then Except.ok (exampleField 2 2 65535)
    else if i = 1 then Except.ok (exampleField 10 10 7)
    else if i = 2 then Except.ok (exampleField 7 7 4676357368227823616)
    else if i = 3 then Except.ok (exampleField 3 1 0)
    else if i = 4 then Except.ok binaryField
    else Except.error ⟨-2146825023⟩⟩

/-- The example row as a recordset with the given replies to `EOF` and `MoveNext`. -/
def exampleRecordset (eof moveNext : Except OleError VARIANT) : RecordsetObj :=
  ⟨eof, Except.ok exampleFields, moveNext⟩

/-- The example row behind a row set fresh from `Query`. -/
def exampleRows (eof moveNext : Except OleError VARIANT) : AdodbRows :=
  ⟨exampleRecordset eof moveNext, -1, []⟩

/-- A field object for the column-name examples: only its `Name` matters. -/
def namedField (name : String) : FieldObj :=
  ⟨Except.ok ⟨8, 0, name, none⟩, Except.ok ⟨3, 3, "", none⟩, Except.ok ⟨3, 0, "", none⟩, some ⟨3, 0, "", none⟩⟩

/-- A recordset with two fields, the first named `id`; `second` is the reply of
`Fields.Item(1)`. -/
def twoFieldRecordset (second : Except OleError FieldObj) : RecordsetObj :=
  ⟨Except.ok ⟨11, 0, "", none⟩,
    Except.ok ⟨Except.ok ⟨3, 2, "", none⟩, fun i => if i = 0 then Except.ok (namedField "id") else second⟩,
    Except.ok ⟨0, 0, "", none⟩⟩

/-- A parameter collection on which every call succeeds; `Count` reads 2. -/
def exampleParameters : ParametersObj :=
  ⟨Except.ok ⟨0, 0, "", none⟩, Except.ok ⟨3, 2, "", none⟩, fun _ => Except.ok ⟨0, 0, "", none⟩,
    fun _ => Except.ok ⟨fun _ => Except.ok ⟨0, 0, "", none⟩⟩⟩

/-- A command on which every call succeeds; `Execute` yields the recordset `rs`. -/
def exampleCommand (rs : RecordsetObj) : CommandObj :=
  ⟨fun _ _ _ => Except.ok ⟨fun _ => Except.ok ⟨0, 0, "", none⟩⟩, Except.ok rs⟩

/-- The calls `Columns` makes to read the name of field `i`. -/
def nameEvents (i : Nat) : List Event :=
  [Event.callMethod Obj.fields "Item" [Arg.i4 i], Event.getProperty (Obj.field i) "Name",
    Event.release (Obj.field i)]

/-- A recordset with the single field `id`. -/
def oneFieldRecordset : RecordsetObj :=
  ⟨Except.ok ⟨11, 0, "", none⟩,
    Except.ok ⟨Except.ok ⟨3, 1, "", none⟩, fun i =>
      if i = 0 then Except.ok (namedField "id") else Except.error ⟨-2146825023⟩⟩,
    Except.ok ⟨0, 0, "", none⟩⟩

/-! ## Theorems -/

/-- The column loop never changes the number of destination slots. -/
theorem columnLoop_length (fields : FieldsObj) (l : List Nat) (dest : List Value) :
    (columnLoop fields l dest).2.length = dest.length := by
  induction l generalizing dest with
  | nil => rfl
  | cons i is ih =>
    unfold columnLoop
    cases h : column fields i <;> simp [ih]

/-- The column loop writes only the slots whose index it visits. -/
theorem columnLoop_frame (fields : FieldsObj) (l : List Nat) (dest : List Value) (i : Nat)
    (hi : i ∉ l) : (columnLoop fields l dest).2[i]? = dest[i]? := by
  induction l generalizing dest with
  | nil => rfl
  | cons j js ih =>
    have hj : j ≠ i := fun h => hi (h ▸ List.mem_cons_self _ _)
    have hjs : i ∉ js := fun h => hi (List.mem_cons_of_mem _ h)
    unfold columnLoop
    cases h : column fields j <;> simp [ih, hjs, List.getElem?_set_ne hj]

/-- A column whose step leaves the slot alone can be dropped from the loop. -/
theorem columnLoop_skip (fields : FieldsObj) (l : List Nat) (dest : List Value) (i : Nat)
    (hk : column fields i = Step.keep) :
    columnLoop fields l dest = columnLoop fields (l.filter (fun j => j ≠ i)) dest := by
  induction l generalizing dest with
  | nil => rfl
  | cons j js ih =>
    by_cases hj : j = i
    · subst hj
      simp [columnLoop, hk, ih]
    · simp only [List.filter_cons, hj, ne_eq, not_false_eq_true, decide_True, if_true]
      unfold columnLoop
      cases h : column fields j <;> simp [ih]

/-- When every column before `i` lets the loop go on, slot `i` holds after the loop the
outcome of the step of column `i`. -/
theorem columnLoop_reached (fields : FieldsObj) (n s : Nat) (dest : List Value) (i : Nat)
    (hs : s ≤ i) (hn : i < s + n) (hi : i < dest.length)
    (hc : ∀ j, s ≤ j → j < i → (column fields j).continues = true) :
    (columnLoop fields (List.range' s n) dest).2[i]? =
      some ((column fields i).apply (dest.getD i Value.null)) := by
  induction n generalizing s dest with
  | zero => omega
  | succ n ih =>
    rw [List.range'_succ]
    by_cases hsi : s = i
    · subst hsi
      have hnot : s ∉ List.range' (s + 1) n := by simp
      unfold columnLoop
      cases h : column fields s <;>
        simp [Step.apply, columnLoop_frame, hnot, hi, List.getD_eq_getElem?_getD]
    · have hcs := hc s (le_refl _) (by omega)
      unfold columnLoop
      cases h : column fields s with
      | assign v =>
        simp only []
        rw [ih (s + 1) _ (by omega) (by omega) (by simpa using hi)
          (fun j h1 h2 => hc j (by omega) h2)]
        simp [List.getD_eq_getElem?_getD, List.getElem?_set_ne hsi]
      | keep =>
        simp only []
        exact ih (s + 1) _ (by omega) (by omega) hi (fun j h1 h2 => hc j (by omega) h2)
      | fail e => simp [h, Step.continues] at hcs
      | panic => simp [h, Step.continues] at hcs

/-- If the column loop runs to its end, no column ended the call. -/
theorem columnLoop_ok_continues (fields : FieldsObj) (l : List Nat) (dest : List Value)
    (h : (columnLoop fields l dest).1 = Ret.ok) :
    ∀ j ∈ l, (column fields j).continues = true := by
  induction l generalizing dest with
  | nil => simp
  | cons i is ih =>
    unfold columnLoop at h
    intro j hj
    cases hc : column fields i <;> simp [hc] at h
    · rcases List.mem_cons.1 hj with rfl | hj
      · simp [hc, Step.continues]
      · exact ih _ h j hj
    · rcases List.mem_cons.1 hj with rfl | hj
      · simp [hc, Step.continues]
      · exact ih _ h j hj

/-- If no column ends the call, the column loop runs to its end. -/
theorem columnLoop_continues_ok (fields : FieldsObj) (l : List Nat) (dest : List Value)
    (h : ∀ j ∈ l, (column fields j).continues = true) :
    (columnLoop fields l dest).1 = Ret.ok := by
  induction l generalizing dest with
  | nil => rfl
  | cons i is ih =>
    have hi := h i (List.mem_cons_self _ _)
    have his : ∀ j ∈ is, (column fields j).continues = true :=
      fun j hj => h j (List.mem_cons_of_mem _ hj)
    unfold columnLoop
    cases hc : column fields i <;> simp [hc, Step.continues] at hi ⊢
    · exact ih _ his
    · exact ih _ his

/-- Once the `EOF` test is passed and `Fields` is read, the slots after `Next` are those the
column loop leaves, and `Next` returns nil exactly when the loop runs to its end and
`MoveNext` succeeds. -/
theorem Next_loop (rc : AdodbRows) (dest : List Value) (v : VARIANT) (fields : FieldsObj)
    (hE : rc.rc.getEOF = Except.ok v) (h0 : v.Val = 0) (hF : rc.rc.getFields = Except.ok fields) :
    (Next rc dest).2 = (columnLoop fields (List.range dest.length) dest).2 ∧
    ((Next rc dest).1 = Ret.ok ↔
      ((columnLoop fields (List.range dest.length) dest).1 = Ret.ok ∧
        ∃ m, rc.rc.callMoveNext = Except.ok m)) := by
  unfold Next
  simp only [hE, h0, hF, ne_eq, not_true_eq_false, if_false]
  rcases h : columnLoop fields (List.range dest.length) dest with ⟨r, d⟩
  cases r with
  | ok =>
    cases hm : rc.rc.callMoveNext <;> simp
  | error e => simp
  | panic => simp

/-- If `Next` returns nil, `EOF` read as zero and the `Fields` read succeeded. -/
theorem Next_ok_inv (rc : AdodbRows) (dest : List Value) (h : (Next rc dest).1 = Ret.ok) :
    ∃ v fields, rc.rc.getEOF = Except.ok v ∧ v.Val = 0 ∧ rc.rc.getFields = Except.ok fields := by
  unfold Next at h
  cases hE : rc.rc.getEOF with
  | error e => simp [hE] at h
  | ok v =>
    by_cases h0 : v.Val = 0
    · cases hF : rc.rc.getFields with
      | error e => simp [hE, h0, hF] at h
      | ok fields => exact ⟨v, fields, rfl, h0, rfl⟩
    · simp [hE, h0] at h

/-- The call of `Next` never changes the number of destination slots. -/
theorem Next_frame (rc : AdodbRows) (dest : List Value) :
    (Next rc dest).2.length = dest.length := by
  unfold Next
  cases hE : rc.rc.getEOF with
  | error e => rfl
  | ok v =>
    by_cases h0 : v.Val = 0
    · cases hF : rc.rc.getFields with
      | error e => simp [h0]
      | ok fields =>
        simp only [h0, ne_eq, not_true_eq_false, if_false]
        have := columnLoop_length fields (List.range dest.length) dest
        rcases h : columnLoop fields (List.range dest.length) dest with ⟨r, d⟩
        rw [h] at this
        cases r with
        | ok => cases hm : rc.rc.callMoveNext <;> simpa using this
        | error e => simpa using this
        | panic => simpa using this
    · simp [h0]

/-- The binary decode on a readable handle with non-nil data and a bound within the
array: the slice over the data, of the declared length. -/
theorem decodeBinary_ok (x : VARIANT) (sa : SAFEARRAY) (hp : uintptr x.Val ≠ 0)
    (hs : x.safeArray = some sa) (hd : sa.Data ≠ 0) (he : sa.Elements ≤ 1073741824) :
    decodeBinary x = Step.assign (Value.bytes sa.Data sa.Elements) := by
  have h : ¬ (sa.Data = 0 ∨ 1073741824 < sa.Elements) := by omega
  simp [decodeBinary, hp, hs, h]

/-- The type switch fails to return only on a decimal or numeric column without a scale
result, or on a binary column whose decode does not return. -/
theorem decode_panic (t : Int) (x : VARIANT) (sc : Option VARIANT)
    (h : decode t x sc = Step.panic) :
    ((t = 14 ∨ t = 131) ∧ sc = none) ∨
      ((t = 128 ∨ t = 205) ∧ decodeBinary x = Step.panic) := by
  unfold decode at h
  split at h <;> first
    | (exfalso; exact Step.noConfusion h)
    | (right; exact ⟨by simp, h⟩)
    | (left; cases sc <;> simp_all [decodeDecimal])

/-- The column step once the three reads of the field have succeeded. -/
theorem column_eq (fields : FieldsObj) (i : Nat) (f : FieldObj) (t x : VARIANT)
    (hI : fields.callItem i = Except.ok f) (hT : f.getType = Except.ok t)
    (hV : f.getValue = Except.ok x) :
    column fields i = if x.VT = 1 then Step.assign Value.null
      else decode t.Val x f.getNumericScale := by
  simp [column, hI, hT, hV]

/-- The type switch never ends the call when the scale result is present for the decimal
and numeric codes and the handle is readable for the binary codes. -/
theorem decode_continues (t : Int) (x : VARIANT) (sc : Option VARIANT)
    (h : (t = 14 ∨ t = 131) → sc ≠ none)
    (hb : (t = 128 ∨ t = 205) → uintptr x.Val ≠ 0 ∧
      ∃ sa, x.safeArray = some sa ∧ sa.Data ≠ 0 ∧ sa.Elements ≤ 1073741824) :
    (decode t x sc).continues = true := by
  unfold decode
  split <;> first
    | rfl
    | (obtain ⟨hp, sa, hs, hd, he⟩ := hb (by simp)
       rw [decodeBinary_ok x sa hp hs hd he]
       rfl)
    | (cases sc <;> simp_all [decodeDecimal, Step.continues])

/-- The column step returns the error of the first of the reads `Item`, `Type`, `Value`
that fails. -/
theorem column_fail (fields : FieldsObj) (i : Nat) (e : OleError)
    (h : fields.callItem i = Except.error e ∨
      (∃ f, fields.callItem i = Except.ok f ∧ f.getType = Except.error e) ∨
      (∃ f t, fields.callItem i = Except.ok f ∧ f.getType = Except.ok t ∧
        f.getValue = Except.error e)) :
    column fields i = Step.fail e := by
  rcases h with h | ⟨f, hI, hT⟩ | ⟨f, t, hI, hT, hV⟩
  · simp [column, h]
  · simp [column, hI, hT]
  · simp [column, hI, hT, hV]

/-- A column whose three reads succeed, with the scale result present for the decimal and
numeric codes and a readable handle for the binary codes, lets the loop go on. -/
theorem column_continues (fields : FieldsObj) (i : Nat)
    (h : ∃ f t x, fields.callItem i = Except.ok f ∧ f.getType = Except.ok t ∧
      f.getValue = Except.ok x ∧
      (x.VT ≠ 1 → (t.Val = 14 ∨ t.Val = 131) → f.getNumericScale ≠ none) ∧
      (x.VT ≠ 1 → (t.Val = 128 ∨ t.Val = 205) → uintptr x.Val ≠ 0 ∧
        ∃ sa, x.safeArray = some sa ∧ sa.Data ≠ 0 ∧ sa.Elements ≤ 1073741824)) :
    (column fields i).continues = true := by
  obtain ⟨f, t, x, hI, hT, hV, hsc, hb⟩ := h
  rw [column_eq fields i f t x hI hT hV]
  by_cases hx : x.VT = 1
  · simp [hx, Step.continues]
  · simpa [hx] using decode_continues t.Val x f.getNumericScale (hsc hx) (hb hx)

/-- The slots after `Next` are the original ones or those the column loop leaves. -/
theorem Next_dest_cases (rc : AdodbRows) (dest : List Value) (fields : FieldsObj)
    (hF : rc.rc.getFields = Except.ok fields) :
    (Next rc dest).2 = dest ∨
      (Next rc dest).2 = (columnLoop fields (List.range dest.length) dest).2 := by
  cases hE : rc.rc.getEOF with
  | error e => left; simp [Next, hE]
  | ok v =>
    by_cases h0 : v.Val = 0
    · right; exact (Next_loop rc dest v fields hE h0 hF).1
    · left; simp [Next, hE, h0]

/-- The column loop ends with the error of the first column whose reads fail. -/
theorem columnLoop_stops (fields : FieldsObj) (n s : Nat) (dest : List Value) (i : Nat)
    (e : OleError) (hs : s ≤ i) (hn : i < s + n)
    (hc : ∀ j, s ≤ j → j < i → (column fields j).continues = true)
    (hf : column fields i = Step.fail e) :
    (columnLoop fields (List.range' s n) dest).1 = Ret.error (GoError.ole e) := by
  induction n generalizing s dest with
  | zero => omega
  | succ n ih =>
    rw [List.range'_succ]
    by_cases hsi : s = i
    · subst hsi
      simp [columnLoop, hf]
    · have hcs := hc s (le_refl _) (by omega)
      unfold columnLoop
      cases h : column fields s with
      | assign v =>
        simp only []
        exact ih (s + 1) _ (by omega) (by omega) (fun j h1 h2 => hc j (by omega) h2)
      | keep =>
        simp only []
        exact ih (s + 1) _ (by omega) (by omega) (fun j h1 h2 => hc j (by omega) h2)
      | fail e1 => simp [h, Step.continues] at hcs
      | panic => simp [h, Step.continues] at hcs

/-- The value `Next` returns once the `EOF` test is passed and `Fields` is read: the
outcome of the column loop, followed by that of `MoveNext` when the loop ran to its end. -/
theorem Next_ret (rc : AdodbRows) (dest : List Value) (v : VARIANT) (fields : FieldsObj)
    (hE : rc.rc.getEOF = Except.ok v) (h0 : v.Val = 0) (hF : rc.rc.getFields = Except.ok fields) :
    (Next rc dest).1 =
      match (columnLoop fields (List.range dest.length) dest).1 with
      | Ret.ok =>
        (match rc.rc.callMoveNext with
          | Except.error e => Ret.error (GoError.ole e)
          | Except.ok _ => Ret.ok)
      | r => r := by
  unfold Next
  simp only [hE, h0, hF, ne_eq, not_true_eq_false, if_false]
  rcases h : columnLoop fields (List.range dest.length) dest with ⟨r, d⟩
  cases r with
  | ok => cases hm : rc.rc.callMoveNext <;> simp
  | error e => simp
  | panic => simp

/-- Once `Next` has got to column `i` (the `EOF` test passed, `Fields` was read, and the
earlier columns did not end the call), slot `i` holds after the call the outcome of the
step of column `i`, however the call ends afterwards. -/
theorem Next_slot (rc : AdodbRows) (dest : List Value) (v : VARIANT)
    (fields : FieldsObj) (i : Nat)
    (hE : rc.rc.getEOF = Except.ok v) (h0 : v.Val = 0) (hF : rc.rc.getFields = Except.ok fields)
    (hi : i < dest.length) (hc : ∀ j, j < i → (column fields j).continues = true) :
    (Next rc dest).2[i]? = some ((column fields i).apply (dest.getD i Value.null)) := by
  rw [(Next_loop rc dest v fields hE h0 hF).1, List.range_eq_range']
  exact columnLoop_reached fields dest.length 0 dest i (Nat.zero_le _) (by omega) hi
    (fun j _ hj => hc j hj)

/-- Counterexample to C1 as stated: with `EOF` reading zero and `MoveNext` failing, `Next`
returns the automation error, so it is not true that `Next` returns no error whenever
`EOF` does not read non-zero; and with the `EOF` read itself failing `Next` returns
`io.EOF` although the property did not read as non-zero; and on the example row, whose
column 1 has type code 10, `Next` returns no error while slot 1 still holds the value it
had before the call. -/
theorem Next_eof_claim_counterexample :
    Next (exampleRows (Except.ok ⟨11, 0, "", none⟩) (Except.error ⟨-2147467259⟩)) [] =
      (Ret.error (GoError.ole ⟨-2147467259⟩), []) ∧
    Next (exampleRows (Except.error ⟨-2147352570⟩) (Except.ok ⟨0, 0, "", none⟩)) [] =
      (Ret.error GoError.EOF, []) ∧
    Next (exampleRows (Except.ok ⟨11, 0, "", none⟩) (Except.ok ⟨0, 0, "", none⟩))
      [Value.str "a", Value.str "b"] = (Ret.ok, [Value.int64 (-1), Value.str "b"]) ∧
    ¬ (∀ (rc : AdodbRows) (dest : List Value),
        ((Next rc dest).1 = Ret.error GoError.EOF ↔
          ∃ v, rc.rc.getEOF = Except.ok v ∧ v.Val ≠ 0) ∧
        ((¬ ∃ v, rc.rc.getEOF = Except.ok v ∧ v.Val ≠ 0) → (Next rc dest).1 = Ret.ok)) := by
  refine ⟨by decide, by decide, by decide, fun h => ?_⟩
  have h1 := (h (exampleRows (Except.ok ⟨11, 0, "", none⟩) (Except.error ⟨-2147467259⟩)) []).2
  have h2 : ¬ ∃ v, (exampleRows (Except.ok ⟨11, 0, "", none⟩)
      (Except.error ⟨-2147467259⟩)).rc.getEOF = Except.ok v ∧ v.Val ≠ 0 := by
    rintro ⟨v, hv, hne⟩
    simp only [exampleRows, exampleRecordset, Except.ok.injEq] at hv
    subst hv
    exact hne rfl
  exact absurd (h1 h2) (by decide)

/-- C1 (amended): `Next` returns `io.EOF` exactly when the read of the `EOF` property fails
or yields a non-zero value.  When `EOF` reads zero and the reads of `Fields`, of each
column (`Item`, `Type`, `Value`) and the `MoveNext` call succeed, and no non-null column
of type code 14 or 131 lacks a `NumericScale` result, and every non-null column of type
code 128 or 205 carries a readable safe-array handle with non-nil data and at most
`1 << 30` elements, `Next` returns no error, keeps the number of slots, and every slot
whose field is null or whose type code has a decode rule holds the decoded value.  When
`EOF` reads zero and the `Fields` read fails, or the `Item`, `Type` or `Value` read of a
column fails after the earlier columns were read and decoded, or the `MoveNext` call
fails after all columns were, `Next` returns that automation error. -/
theorem Next_eof_and_slots (rc : AdodbRows) (dest : List Value) :
    ((Next rc dest).1 = Ret.error GoError.EOF ↔
      ((∃ e, rc.rc.getEOF = Except.error e) ∨ ∃ v, rc.rc.getEOF = Except.ok v ∧ v.Val ≠ 0)) ∧
    (∀ (v : VARIANT) (fields : FieldsObj) (m : VARIANT),
      rc.rc.getEOF = Except.ok v → v.Val = 0 → rc.rc.getFields = Except.ok fields →
      rc.rc.callMoveNext = Except.ok m →
      (∀ i : Nat, i < dest.length → ∃ f t x, fields.callItem i = Except.ok f ∧
        f.getType = Except.ok t ∧ f.getValue = Except.ok x ∧
        (x.VT ≠ 1 → (t.Val = 14 ∨ t.Val = 131) → f.getNumericScale ≠ none) ∧
        (x.VT ≠ 1 → (t.Val = 128 ∨ t.Val = 205) → uintptr x.Val ≠ 0 ∧
          ∃ sa, x.safeArray = some sa ∧ sa.Data ≠ 0 ∧ sa.Elements ≤ 1073741824)) →
      (Next rc dest).1 = Ret.ok ∧ (Next rc dest).2.length = dest.length ∧
      ∀ (i : Nat) (f : FieldObj) (t x : VARIANT), i < dest.length →
        fields.callItem i = Except.ok f → f.getType = Except.ok t →
        f.getValue = Except.ok x →
        (x.VT = 1 → (Next rc dest).2[i]? = some Value.null) ∧
        (∀ y, x.VT ≠ 1 → decode t.Val x f.getNumericScale = Step.assign y →
          (Next rc dest).2[i]? = some y)) ∧
    (∀ (v : VARIANT) (e : OleError), rc.rc.getEOF = Except.ok v → v.Val = 0 →
      (rc.rc.getFields = Except.error e → Next rc dest = (Ret.error (GoError.ole e), dest)) ∧
      (∀ (fields : FieldsObj) (i : Nat), rc.rc.getFields = Except.ok fields →
        i < dest.length →
        (∀ j : Nat, j < i → ∃ f t x, fields.callItem j = Except.ok f ∧
          f.getType = Except.ok t ∧ f.getValue = Except.ok x ∧
          (x.VT ≠ 1 → (t.Val = 14 ∨ t.Val = 131) → f.getNumericScale ≠ none) ∧
          (x.VT ≠ 1 → (t.Val = 128 ∨ t.Val = 205) → uintptr x.Val ≠ 0 ∧
            ∃ sa, x.safeArray = some sa ∧ sa.Data ≠ 0 ∧ sa.Elements ≤ 1073741824)) →
        (fields.callItem i = Except.error e ∨
          (∃ f, fields.callItem i = Except.ok f ∧ f.getType = Except.error e) ∨
          (∃ f t, fields.callItem i = Except.ok f ∧ f.getType = Except.ok t ∧
            f.getValue = Except.error e)) →
        (Next rc dest).1 = Ret.error (GoError.ole e)) ∧
      (∀ (fields : FieldsObj), rc.rc.getFields = Except.ok fields →
        (∀ j : Nat, j < dest.length → ∃ f t x, fields.callItem j = Except.ok f ∧
          f.getType = Except.ok t ∧ f.getValue = Except.ok x ∧
          (x.VT ≠ 1 → (t.Val = 14 ∨ t.Val = 131) → f.getNumericScale ≠ none) ∧
          (x.VT ≠ 1 → (t.Val = 128 ∨ t.Val = 205) → uintptr x.Val ≠ 0 ∧
            ∃ sa, x.safeArray = some sa ∧ sa.Data ≠ 0 ∧ sa.Elements ≤ 1073741824)) →
        rc.rc.callMoveNext = Except.error e →
        (Next rc dest).1 = Ret.error (GoError.ole e))) := by
  refine ⟨?_, ?_, ?_⟩
  · unfold Next
    cases hE : rc.rc.getEOF with
    | error e => simp
    | ok v =>
      by_cases h0 : v.Val = 0
      · simp only [h0, ne_eq, not_true_eq_false, if_false]
        cases hF : rc.rc.getFields with
        | error e => simp [h0]
        | ok fields =>
          have hne : ∀ l d, (columnLoop fields l d).1 ≠ Ret.error GoError.EOF := by
            intro l
            induction l with
            | nil => intro d; simp [columnLoop]
            | cons j js ih =>
              intro d
              unfold columnLoop
              cases hc : column fields j <;> simp [ih]
          have := hne (List.range dest.length) dest
          rcases h : columnLoop fields (List.range dest.length) dest with ⟨r, d⟩
          rw [h] at this
          cases r with
          | ok => cases hm : rc.rc.callMoveNext <;> simp [h, h0]
          | error e => simpa [h, h0] using this
          | panic => simp [h, h0]
      · simp [h0]
  · intro v fields m hE h0 hF hM hcols
    have hcont : ∀ j, j < dest.length → (column fields j).continues = true :=
      fun j hj => column_continues fields j (hcols j hj)
    obtain ⟨hd, hr⟩ := Next_loop rc dest v fields hE h0 hF
    have hok : (Next rc dest).1 = Ret.ok :=
      hr.2 ⟨columnLoop_continues_ok fields _ dest
        (fun j hj => hcont j (List.mem_range.1 hj)), m, hM⟩
    refine ⟨hok, Next_frame rc dest, ?_⟩
    intro i f t x hi hI hT hV
    have hslot := Next_slot rc dest v fields i hE h0 hF hi
      (fun j hj => hcont j (by omega))
    rw [column_eq fields i f t x hI hT hV] at hslot
    constructor
    · intro hx
      simpa [hx, Step.apply] using hslot
    · intro y hx hy
      simpa [hx, hy, Step.apply] using hslot
  · intro v e hE h0
    refine ⟨fun hF => by simp [Next, hE, h0, hF], ?_, ?_⟩
    · intro fields i hF hi hc hf
      rw [Next_ret rc dest v fields hE h0 hF, List.range_eq_range',
        columnLoop_stops fields dest.length 0 dest i e (Nat.zero_le _) (by omega)
          (fun j _ hj => column_continues fields j (hc j hj)) (column_fail fields i e hf)]
    · intro fields hF hc hM
      rw [Next_ret rc dest v fields hE h0 hF,
        columnLoop_continues_ok fields _ dest
          (fun j hj => column_continues fields j (hc j (List.mem_range.1 hj))), hM]

/-- Witness for C1 (amended): on the example row (columns of type 2, 10, 7, a null column
and a binary column) with `EOF` false and `MoveNext` succeeding, `Next` returns no error
and the small-int, null and binary columns hold their decoded values; with a sixth slot,
whose `Item` call fails, `Next` returns that error. -/
theorem Next_eof_and_slots_witness :
    (Next (exampleRows (Except.ok ⟨11, 0, "", none⟩) (Except.ok ⟨0, 0, "", none⟩))
      [Value.str "a", Value.str "b", Value.str "c", Value.str "d", Value.str "e"]).1 =
        Ret.ok ∧
    (Next (exampleRows (Except.ok ⟨11, 0, "", none⟩) (Except.ok ⟨0, 0, "", none⟩))
      [Value.str "a", Value.str "b", Value.str "c", Value.str "d", Value.str "e"]).2[0]? =
        some (Value.int64 (-1)) ∧
    (Next (exampleRows (Except.ok ⟨11, 0, "", none⟩) (Except.ok ⟨0, 0, "", none⟩))
      [Value.str "a", Value.str "b", Value.str "c", Value.str "d", Value.str "e"]).2[3]? =
        some Value.null ∧
    (Next (exampleRows (Except.ok ⟨11, 0, "", none⟩) (Except.ok ⟨0, 0, "", none⟩))
      [Value.str "a", Value.str "b", Value.str "c", Value.str "d", Value.str "e"]).2[4]? =
        some (Value.bytes 8192 3) ∧
    (Next (exampleRows (Except.ok ⟨11, 0, "", none⟩) (Except.ok ⟨0, 0, "", none⟩))
      [Value.str "a", Value.str "b", Value.str "c", Value.str "d", Value.str "e",
        Value.str "f"]).1 = Ret.error (GoError.ole ⟨-2146825023⟩) := by
  have hcols : ∀ i : Nat, i < 5 → ∃ f t x, exampleFields.callItem i = Except.ok f ∧
      f.getType = Except.ok t ∧ f.getValue = Except.ok x ∧
      (x.VT ≠ 1 → (t.Val = 14 ∨ t.Val = 131) → f.getNumericScale ≠ none) ∧
      (x.VT ≠ 1 → (t.Val = 128 ∨ t.Val = 205) → uintptr x.Val ≠ 0 ∧
        ∃ sa, x.safeArray = some sa ∧ sa.Data ≠ 0 ∧ sa.Elements ≤ 1073741824) := by
    intro i hi
    interval_cases i
    · exact ⟨_, _, _, rfl, rfl, rfl, fun _ _ => by simp [exampleField],
        fun _ h => absurd h (by decide)⟩
    · exact ⟨_, _, _, rfl, rfl, rfl, fun _ _ => by simp [exampleField],
        fun _ h => absurd h (by decide)⟩
    · exact ⟨_, _, _, rfl, rfl, rfl, fun _ _ => by simp [exampleField],
        fun _ h => absurd h (by decide)⟩
    · exact ⟨_, _, _, rfl, rfl, rfl, fun _ _ => by simp [exampleField],
        fun _ h => absurd h (by decide)⟩
    · exact ⟨_, _, _, rfl, rfl, rfl, fun _ _ => by simp [binaryField],
        fun _ _ => ⟨by decide, ⟨8192, 3⟩, rfl, by decide, by decide⟩⟩
  have h := (Next_eof_and_slots
    (exampleRows (Except.ok ⟨11, 0, "", none⟩) (Except.ok ⟨0, 0, "", none⟩))
    [Value.str "a", Value.str "b", Value.str "c", Value.str "d", Value.str "e"]).2.1
    ⟨11, 0, "", none⟩ exampleFields ⟨0, 0, "", none⟩ rfl rfl rfl rfl hcols
  have h6 := ((Next_eof_and_slots
    (exampleRows (Except.ok ⟨11, 0, "", none⟩) (Except.ok ⟨0, 0, "", none⟩))
    [Value.str "a", Value.str "b", Value.str "c", Value.str "d", Value.str "e",
      Value.str "f"]).2.2 ⟨11, 0, "", none⟩ ⟨-2146825023⟩ rfl rfl).2.1
    exampleFields 5 rfl (by decide) hcols (Or.inl rfl)
  exact ⟨h.1,
    (h.2.2 0 _ _ _ (by decide) rfl rfl rfl).2 _ (by decide) rfl,
    (h.2.2 3 _ _ _ (by decide) rfl rfl rfl).1 rfl,
    (h.2.2 4 _ _ _ (by decide) rfl rfl rfl).2 _ (by decide) rfl,
    h6⟩

/-- C2: whatever the type code, the payload and the numeric scale of a field, if its
value carries the null tag (`VT = 1`) the column step of `Next` assigns nil without
entering the type switch, and once `Next` has got to that column (the `EOF` test passed
and the earlier columns did not end the call) the destination slot holds nil. -/
theorem Next_null_field (fields : FieldsObj) (i : Nat) (f : FieldObj) (t x : VARIANT)
    (hI : fields.callItem i = Except.ok f) (hT : f.getType = Except.ok t)
    (hV : f.getValue = Except.ok x) (hN : x.VT = 1) :
    column fields i = Step.assign Value.null ∧
    ∀ (rc : AdodbRows) (dest : List Value) (v : VARIANT),
      rc.rc.getEOF = Except.ok v → v.Val = 0 → rc.rc.getFields = Except.ok fields →
      i < dest.length → (∀ j, j < i → (column fields j).continues = true) →
      (Next rc dest).2[i]? = some Value.null := by
  have hcol : column fields i = Step.assign Value.null := by
    rw [column_eq fields i f t x hI hT hV]; simp [hN]
  refine ⟨hcol, fun rc dest v hE h0 hF hi hc => ?_⟩
  rw [Next_slot rc dest v fields i hE h0 hF hi hc, hcol]
  rfl

/-- Witness for C2: column 3 of the example row has type code 3 and a null value. -/
theorem Next_null_field_witness :
    (exampleField 3 1 0).getValue = Except.ok ⟨1, 0, "", none⟩ ∧
    column exampleFields 3 = Step.assign Value.null ∧
    (Next (exampleRows (Except.ok ⟨11, 0, "", none⟩) (Except.ok ⟨0, 0, "", none⟩))
      [Value.str "a", Value.str "b", Value.str "c", Value.str "d"]).2[3]? =
        some Value.null :=
  ⟨rfl,
    (Next_null_field exampleFields 3 (exampleField 3 1 0) ⟨3, 3, "", none⟩ ⟨1, 0, "", none⟩
      rfl rfl rfl rfl).1,
    (Next_null_field exampleFields 3 (exampleField 3 1 0) ⟨3, 3, "", none⟩ ⟨1, 0, "", none⟩
      rfl rfl rfl rfl).2
      (exampleRows (Except.ok ⟨11, 0, "", none⟩) (Except.ok ⟨0, 0, "", none⟩))
      [Value.str "a", Value.str "b", Value.str "c", Value.str "d"] ⟨11, 0, "", none⟩
      rfl rfl rfl (by decide) (by intro j hj; interval_cases j <;> decide)⟩

/-- C3: for every `v` with `-32768 ≤ v ≤ 32767` and every payload that agrees with `v` on
its low 16 bits, a non-null field of type code 2 decodes to the 64-bit integer `v`: the
switch yields it, the column step assigns it, and once `Next` has got to that column the
destination slot holds it. -/
theorem Next_smallint_sign_extension (fields : FieldsObj) (i : Nat) (f : FieldObj)
    (t x : VARIANT) (v : Int)
    (hI : fields.callItem i = Except.ok f) (hT : f.getType = Except.ok t)
    (ht : t.Val = 2) (hV : f.getValue = Except.ok x) (hnn : x.VT ≠ 1)
    (hlo : -32768 ≤ v) (hhi : v ≤ 32767) (hx : x.Val % 65536 = v % 65536) :
    decode 2 x f.getNumericScale = Step.assign (Value.int64 v) ∧
    column fields i = Step.assign (Value.int64 v) ∧
    ∀ (rc : AdodbRows) (dest : List Value) (v0 : VARIANT),
      rc.rc.getEOF = Except.ok v0 → v0.Val = 0 → rc.rc.getFields = Except.ok fields →
      i < dest.length → (∀ j, j < i → (column fields j).continues = true) →
      (Next rc dest).2[i]? = some (Value.int64 v) := by
  have h16 : int16 x.Val = v := by
    unfold int16
    rw [hx]
    split <;> omega
  have hdec : decode 2 x f.getNumericScale = Step.assign (Value.int64 v) := by
    show Step.assign (Value.int64 (int16 x.Val)) = _
    rw [h16]
  have hcol : column fields i = Step.assign (Value.int64 v) := by
    rw [column_eq fields i f t x hI hT hV, ht]; simp [hnn, hdec]
  refine ⟨hdec, hcol, fun rc dest v0 hE h0 hF hi hc => ?_⟩
  rw [Next_slot rc dest v0 fields i hE h0 hF hi hc, hcol]
  rfl

/-- Witness for C3: column 0 of the example row has type code 2 and payload `0xFFFF`,
which is `-1`. -/
theorem Next_smallint_sign_extension_witness :
    (65535 : Int) % 65536 = (-1) % 65536 ∧
    column exampleFields 0 = Step.assign (Value.int64 (-1)) ∧
    (Next (exampleRows (Except.ok ⟨11, 0, "", none⟩) (Except.ok ⟨0, 0, "", none⟩))
      [Value.str "a", Value.str "b"]).2[0]? = some (Value.int64 (-1)) :=
  ⟨by decide,
    (Next_smallint_sign_extension exampleFields 0 (exampleField 2 2 65535) ⟨3, 2, "", none⟩
      ⟨2, 65535, "", none⟩ (-1) rfl rfl rfl rfl (by decide) (by decide) (by decide)
      (by decide)).2.1,
    (Next_smallint_sign_extension exampleFields 0 (exampleField 2 2 65535) ⟨3, 2, "", none⟩
      ⟨2, 65535, "", none⟩ (-1) rfl rfl rfl rfl (by decide) (by decide) (by decide)
      (by decide)).2.2
      (exampleRows (Except.ok ⟨11, 0, "", none⟩) (Except.ok ⟨0, 0, "", none⟩))
      [Value.str "a", Value.str "b"] ⟨11, 0, "", none⟩ rfl rfl rfl (by decide)
      (by intro j hj; omega)⟩

/-- C9: a non-null field whose type code is 10, 21 or 204 makes the column step of `Next`
leave the slot alone without ending the call; the slot holds after `Next` exactly what it
held before, however the call ends; the column loop runs as if this column were not in
it, so no other slot is affected by it; and when `Next` returns no error every other
slot holds the outcome of its own column step. -/
theorem Next_unimplemented_codes_keep_slot (rc : AdodbRows) (dest : List Value)
    (fields : FieldsObj) (i : Nat) (f : FieldObj) (t x : VARIANT)
    (hF : rc.rc.getFields = Except.ok fields)
    (hI : fields.callItem i = Except.ok f) (hT : f.getType = Except.ok t)
    (ht : t.Val = 10 ∨ t.Val = 21 ∨ t.Val = 204)
    (hV : f.getValue = Except.ok x) (hnn : x.VT ≠ 1) :
    column fields i = Step.keep ∧
    (Next rc dest).2[i]? = dest[i]? ∧
    columnLoop fields (List.range dest.length) dest =
      columnLoop fields ((List.range dest.length).filter (fun j => j ≠ i)) dest ∧
    ((Next rc dest).1 = Ret.ok → ∀ j, j ≠ i → j < dest.length →
      (Next rc dest).2[j]? = some ((column fields j).apply (dest.getD j Value.null))) := by
  have hcol : column fields i = Step.keep := by
    rw [column_eq fields i f t x hI hT hV]
    rcases ht with h | h | h <;> simp [hnn, h, decode]
  have hskip := columnLoop_skip fields (List.range dest.length) dest i hcol
  refine ⟨hcol, ?_, hskip, ?_⟩
  · rcases Next_dest_cases rc dest fields hF with h | h
    · rw [h]
    · rw [h, hskip]
      exact columnLoop_frame fields _ dest i (by simp)
  · intro hok j _ hj
    obtain ⟨v, fields1, hE, h0, hF1⟩ := Next_ok_inv rc dest hok
    rw [hF] at hF1
    cases hF1
    obtain ⟨hd, hr⟩ := Next_loop rc dest v fields hE h0 hF
    have hall := columnLoop_ok_continues fields _ dest (hr.1 hok).1
    rw [hd, List.range_eq_range']
    exact columnLoop_reached fields dest.length 0 dest j (Nat.zero_le _) (by omega) hj
      (fun k _ hk => hall k (List.mem_range.2 (by omega)))

/-- Witness for C9: column 1 of the example row has type code 10 and a non-null value;
its slot keeps the old value while column 0 is decoded. -/
theorem Next_unimplemented_codes_keep_slot_witness :
    column exampleFields 1 = Step.keep ∧
    Next (exampleRows (Except.ok ⟨11, 0, "", none⟩) (Except.ok ⟨0, 0, "", none⟩))
      [Value.str "a", Value.str "b"] = (Ret.ok, [Value.int64 (-1), Value.str "b"]) ∧
    (Next (exampleRows (Except.ok ⟨11, 0, "", none⟩) (Except.ok ⟨0, 0, "", none⟩))
      [Value.str "a", Value.str "b"]).2[1]? = [Value.str "a", Value.str "b"][1]? :=
  ⟨by decide, by decide, (Next_unimplemented_codes_keep_slot
    (exampleRows (Except.ok ⟨11, 0, "", none⟩) (Except.ok ⟨0, 0, "", none⟩))
    [Value.str "a", Value.str "b"] exampleFields 1 (exampleField 10 10 7) ⟨3, 10, "", none⟩
    ⟨10, 7, "", none⟩ rfl rfl rfl (by decide) rfl (by decide)).2.1⟩

/-- Counterexample to C4 as stated: the payload `0x40E5C24000000000` is the double
44562.0 (integer part 44562, fraction zero); a non-null field of type code 7 with this
payload decodes to 2022-01-01 00:00:00, not to 2021-12-31 00:00:00. -/
theorem Next_date_44562_counterexample :
    Float64frombits (uint64 4676357368227823616) = some ⟨false, 6124554644619264, -37⟩ ∧
    toInt (Modf ⟨false, 6124554644619264, -37⟩).1 = some 44562 ∧
    (Modf ⟨false, 6124554644619264, -37⟩).2.man = 0 ∧
    column exampleFields 2 = Step.assign (Value.time (some ⟨2022, 1, 1, 0, 0, 0, 0⟩)) ∧
    column exampleFields 2 ≠ Step.assign (Value.time (some ⟨2021, 12, 31, 0, 0, 0, 0⟩)) := by
  refine ⟨by decide, by decide, by decide, by decide, by decide⟩

/-- C4 (amended): a non-null field of type code 7 whose payload is the double 44562.0
decodes to the local timestamp 2022-01-01 00:00:00, which `Next` leaves in the slot once
it has got to that column; the day serial that decodes to 2021-12-31 00:00:00 is 44561
(payload `0x40E5C22000000000`). -/
theorem Next_date_44562 (fields : FieldsObj) (i : Nat) (f : FieldObj) (t x : VARIANT)
    (hI : fields.callItem i = Except.ok f) (hT : f.getType = Except.ok t)
    (ht : t.Val = 7) (hV : f.getValue = Except.ok x) (hnn : x.VT ≠ 1)
    (hx : x.Val = 4676357368227823616) :
    column fields i = Step.assign (Value.time (some ⟨2022, 1, 1, 0, 0, 0, 0⟩)) ∧
    (∀ (rc : AdodbRows) (dest : List Value) (v : VARIANT),
      rc.rc.getEOF = Except.ok v → v.Val = 0 → rc.rc.getFields = Except.ok fields →
      i < dest.length → (∀ j, j < i → (column fields j).continues = true) →
      (Next rc dest).2[i]? = some (Value.time (some ⟨2022, 1, 1, 0, 0, 0, 0⟩))) ∧
    decode 7 ⟨x.VT, 4676357230788870144, x.str, x.safeArray⟩ f.getNumericScale =
      Step.assign (Value.time (some ⟨2021, 12, 31, 0, 0, 0, 0⟩)) := by
  have hcol : column fields i =
      Step.assign (Value.time (some ⟨2022, 1, 1, 0, 0, 0, 0⟩)) := by
    rw [column_eq fields i f t x hI hT hV, ht]
    simp only [hnn, if_false]
    show Step.assign (Value.time (decodeDate x.Val)) = _
    rw [hx]
    decide
  refine ⟨hcol, fun rc dest v hE h0 hF hi hc => ?_, ?_⟩
  · rw [Next_slot rc dest v fields i hE h0 hF hi hc, hcol]
    rfl
  · show Step.assign (Value.time (decodeDate 4676357230788870144)) = _
    decide

/-- Witness for C4 (amended): column 2 of the example row. -/
theorem Next_date_44562_witness :
    (exampleField 7 7 4676357368227823616).getValue =
      Except.ok ⟨7, 4676357368227823616, "", none⟩ ∧
    column exampleFields 2 = Step.assign (Value.time (some ⟨2022, 1, 1, 0, 0, 0, 0⟩)) ∧
    (Next (exampleRows (Except.ok ⟨11, 0, "", none⟩) (Except.ok ⟨0, 0, "", none⟩))
      [Value.str "a", Value.str "b", Value.str "c"]).2[2]? =
        some (Value.time (some ⟨2022, 1, 1, 0, 0, 0, 0⟩)) :=
  ⟨rfl,
    (Next_date_44562 exampleFields 2 (exampleField 7 7 4676357368227823616) ⟨3, 7, "", none⟩
      ⟨7, 4676357368227823616, "", none⟩ rfl rfl rfl rfl (by decide) rfl).1,
    (Next_date_44562 exampleFields 2 (exampleField 7 7 4676357368227823616) ⟨3, 7, "", none⟩
      ⟨7, 4676357368227823616, "", none⟩ rfl rfl rfl rfl (by decide) rfl).2.1
      (exampleRows (Except.ok ⟨11, 0, "", none⟩) (Except.ok ⟨0, 0, "", none⟩))
      [Value.str "a", Value.str "b", Value.str "c"] ⟨11, 0, "", none⟩ rfl rfl rfl (by decide)
      (by intro j hj; interval_cases j <;> decide)⟩

/-- C5: `NumInput` is determined by four cases.  With a bound name list it returns the
length of the list and makes no automation call; with none it calls `Refresh` and then
reads `Count`, returning -1 when `Refresh` fails (without reading `Count`), -1 when the
`Count` read fails, and the value of `Count` otherwise. -/
theorem NumInput_cases (cmd : CommandObj) (names : List String) (old : Option (List String))
    (e : OleError) (r v : VARIANT) (rf cn : Except OleError VARIANT)
    (ap : Nat → Except OleError VARIANT) (it : Int → Except OleError ParameterObj) :
    NumInput (Bind ⟨cmd, ⟨rf, cn, ap, it⟩, old⟩ (some names)).1 = ((names.length : Int), []) ∧
    NumInput ⟨cmd, ⟨rf, cn, ap, it⟩, some names⟩ = ((names.length : Int), []) ∧
    NumInput ⟨cmd, ⟨Except.error e, cn, ap, it⟩, none⟩ =
      (-1, [Event.callMethod Obj.parameters "Refresh" []]) ∧
    NumInput ⟨cmd, ⟨Except.ok r, Except.error e, ap, it⟩, none⟩ =
      (-1, [Event.callMethod Obj.parameters "Refresh" [],
        Event.getProperty Obj.parameters "Count"]) ∧
    NumInput ⟨cmd, ⟨Except.ok r, Except.ok v, ap, it⟩, none⟩ =
      (v.Val, [Event.callMethod Obj.parameters "Refresh" [],
        Event.getProperty Obj.parameters "Count"]) :=
  ⟨rfl, rfl, rfl, rfl, rfl⟩

/-- C8 (the code at the failing input): with the name list `["@id"]` bound and one
argument, the name passed to `CreateParameter` for argument 0 is `"?"`, not `"@id"`. -/
theorem bind_passes_placeholder_at_bound_index :
    bindName ["@id"] 0 = some "?" ∧
    bind ⟨exampleCommand (twoFieldRecordset (Except.ok (namedField "name"))),
      exampleParameters, some ["@id"]⟩ [Value.int64 7] =
      (Ret.ok,
        [Event.callMethod Obj.command "CreateParameter" [Arg.str "?", Arg.int 12, Arg.int 1],
          Event.putProperty (Obj.parameter 0) "Value" (Arg.value (Value.int64 7)),
          Event.callMethod Obj.parameters "Append" [Arg.obj (Obj.parameter 0)],
          Event.release (Obj.parameter 0)]) := by
  refine ⟨by decide, by decide⟩

/-- C10 (the code at the failing input): with the name list `["@id"]` bound and three
arguments, the guard `len(s.b) < i` holds at `i = 2`, the lookup `s.b[2]` is out of
range, and `bind` panics. -/
theorem bind_reads_past_the_name_list :
    bindName ["@id"] 2 = none ∧
    (bind ⟨exampleCommand (twoFieldRecordset (Except.ok (namedField "name"))),
      exampleParameters, some ["@id"]⟩
      [Value.int64 7, Value.int64 8, Value.int64 9]).1 = Ret.panic := by
  refine ⟨by decide, by decide⟩

/-- The name selection of the first branch of `bind`, in closed form: the placeholder up
to index `len(s.b)`, an out-of-range lookup beyond it; a bound name is never chosen. -/
theorem bindName_eq (b : List String) (i : Nat) :
    bindName b i = if i ≤ b.length then some "?" else none := by
  unfold bindName
  by_cases h : b.length < i
  · have h1 : ¬ i ≤ b.length := by omega
    simp [h, h1, List.getElem?_eq_none (by omega : b.length ≤ i)]
  · have h1 : i ≤ b.length := by omega
    simp [h, h1]

/-- C6 (the code at the failing input): on a row set fresh from `Query` over a recordset
with two fields whose `Fields.Item(1)` call fails, the first `Columns` returns the empty
sequence but caches count 2 and the half-filled names, and the second `Columns`, with
the fields unchanged, returns a sequence of length 2. -/
theorem Columns_twice_after_failed_read :
    Query ⟨exampleCommand (twoFieldRecordset (Except.error ⟨-2147467259⟩)),
      exampleParameters, none⟩ [] =
      (some ⟨twoFieldRecordset (Except.error ⟨-2147467259⟩), -1, []⟩, Ret.ok,
        [Event.callMethod Obj.command "Execute" []]) ∧
    (Columns ⟨twoFieldRecordset (Except.error ⟨-2147467259⟩), -1, []⟩).1 = some [] ∧
    (Columns ⟨twoFieldRecordset (Except.error ⟨-2147467259⟩), -1, []⟩).2.1.nc = 2 ∧
    (Columns ⟨twoFieldRecordset (Except.error ⟨-2147467259⟩), -1, []⟩).2.1.cols = ["id", ""] ∧
    (Columns (Columns ⟨twoFieldRecordset (Except.error ⟨-2147467259⟩), -1, []⟩).2.1).1 =
      some ["id", ""] ∧
    (Columns (Columns ⟨twoFieldRecordset (Except.error ⟨-2147467259⟩), -1, []⟩).2.1).2.2 =
      [] := by
  refine ⟨rfl, by decide, by decide, by decide, by decide, by decide⟩

/-- Counterexample to C7 as stated: after `Columns` on a one-field recordset the cache
holds count 1 and the name `id`; when the recordset then has two fields, the cached count
1 differs from the live `Fields.Count` 2, yet `Columns` returns the cached one-name
sequence and makes no call at all, where a fresh read returns two names. -/
theorem Columns_live_count_counterexample :
    (Columns ⟨oneFieldRecordset, -1, []⟩).2.1.nc = 1 ∧
    (Columns ⟨oneFieldRecordset, -1, []⟩).2.1.cols = ["id"] ∧
    (∃ fields, (twoFieldRecordset (Except.ok (namedField "name"))).getFields =
      Except.ok fields ∧ fields.getCount = Except.ok ⟨3, 2, "", none⟩) ∧
    (Columns ⟨twoFieldRecordset (Except.ok (namedField "name")), 1, ["id"]⟩).1 =
      some ["id"] ∧
    (Columns ⟨twoFieldRecordset (Except.ok (namedField "name")), 1, ["id"]⟩).2.2 = [] ∧
    (Columns ⟨twoFieldRecordset (Except.ok (namedField "name")), -1, []⟩).1 =
      some ["id", "name"] := by
  refine ⟨by decide, by decide, ⟨_, rfl, rfl⟩, by decide, by decide, by decide⟩

/-- The name-reading loop of `Columns` when every `Item` and `Name` read succeeds: it runs
to its end, makes the three calls per field in index order, and stores each name at its
index. -/
theorem readNames_ok (fields : FieldsObj) (names : Nat → String) (n s : Nat)
    (cols : List String)
    (h : ∀ i : Nat, s ≤ i → i < s + n → ∃ f nm, fields.callItem i = Except.ok f ∧
      f.getName = Except.ok nm ∧ nm.str = names i) :
    (readNames fields (List.range' s n) cols).1 = true ∧
    (readNames fields (List.range' s n) cols).2.2 = ((List.range' s n).map nameEvents).flatten ∧
    (readNames fields (List.range' s n) cols).2.1.length = cols.length ∧
    ∀ j, (readNames fields (List.range' s n) cols).2.1[j]? =
      if s ≤ j ∧ j < s + n ∧ j < cols.length then some (names j) else cols[j]? := by
  induction n generalizing s cols with
  | zero =>
    refine ⟨rfl, rfl, rfl, fun j => ?_⟩
    have : ¬ (s ≤ j ∧ j < s ∧ j < cols.length) := by omega
    simp [readNames, this]
  | succ n ih =>
    obtain ⟨f, nm, hI, hN, hnm⟩ := h s (le_refl _) (by omega)
    obtain ⟨h1, h2, h3, h4⟩ := ih (s + 1) (cols.set s nm.str)
      (fun i hi1 hi2 => h i (by omega) (by omega))
    rw [List.range'_succ]
    simp only [readNames, hI, hN, List.map_cons, List.flatten_cons]
    refine ⟨h1, ?_, ?_, fun j => ?_⟩
    · rw [h2]; rfl
    · rw [h3]; simp
    · rw [h4, List.length_set, List.getElem?_set]
      by_cases hj : s = j
      · subst hj
        by_cases hl : s < cols.length
        · have : ¬ (s + 1 ≤ s ∧ s < s + 1 + n ∧ s < cols.length) := by omega
          have h5 : s ≤ s ∧ s < s + (n + 1) ∧ s < cols.length := by omega
          simp [this, h5, hl, hnm]
        · have : ¬ (s + 1 ≤ s ∧ s < s + 1 + n ∧ s < cols.length) := by omega
          have h5 : ¬ (s ≤ s ∧ s < s + (n + 1) ∧ s < cols.length) := by omega
          simp [this, h5, hl, List.getElem?_eq_none (by omega : cols.length ≤ s)]
      · by_cases hc : s + 1 ≤ j ∧ j < s + 1 + n ∧ j < cols.length
        · have h5 : s ≤ j ∧ j < s + (n + 1) ∧ j < cols.length := by omega
          simp [hc, h5]
        · have h5 : ¬ (s ≤ j ∧ j < s + (n + 1) ∧ j < cols.length) := by omega
          simp [hc, h5, hj]

/-- A `Columns` call that finds the cached count different from the cached length, with
all its reads succeeding: the names are read in index order, returned and cached. -/
theorem Columns_read (rc : AdodbRows) (fields : FieldsObj) (cnt : VARIANT)
    (names : Nat → String) (hne : rc.nc ≠ rc.cols.length)
    (hF : rc.rc.getFields = Except.ok fields) (hC : fields.getCount = Except.ok cnt)
    (h0 : 0 ≤ cnt.Val)
    (hN : ∀ i : Nat, (i : Int) < cnt.Val → ∃ f nm, fields.callItem i = Except.ok f ∧
      f.getName = Except.ok nm ∧ nm.str = names i) :
    Columns rc = (some ((List.range cnt.Val.toNat).map names),
      ⟨rc.rc, cnt.Val, (List.range cnt.Val.toNat).map names⟩,
      [Event.getProperty Obj.recordset "Fields", Event.getProperty Obj.fields "Count"]
        ++ ((List.range cnt.Val.toNat).map nameEvents).flatten
        ++ [Event.release Obj.fields]) := by
  obtain ⟨h1, h2, h3, h4⟩ := readNames_ok fields names cnt.Val.toNat 0
    (List.replicate cnt.Val.toNat "")
    (fun i _ hi => hN i (by omega))
  rw [← List.range_eq_range'] at h1 h2 h3 h4
  have hcols : (readNames fields (List.range cnt.Val.toNat)
      (List.replicate cnt.Val.toNat "")).2.1 = (List.range cnt.Val.toNat).map names := by
    apply List.ext_getElem?
    intro j
    rw [h4]
    by_cases hj : j < cnt.Val.toNat
    · simp [hj]
    · have hr : (List.range cnt.Val.toNat)[j]? = none :=
        List.getElem?_eq_none (by simpa using hj)
      have hle : cnt.Val ≤ (j : Int) := by omega
      simp [hj, hr, hle]
  have hlt : ¬ cnt.Val < 0 := by omega
  simp only [Columns, hne, ne_eq, not_false_eq_true, if_true, hF, hC, hlt, if_false, h1, h2,
    hcols]

/-- After a `Columns` call whose reads all succeeded, a second call on the unchanged
recordset returns the same names and makes no call on the automation layer. -/
theorem Columns_twice_after_successful_read (rc : AdodbRows) (fields : FieldsObj)
    (cnt : VARIANT) (names : Nat → String) (hne : rc.nc ≠ rc.cols.length)
    (hF : rc.rc.getFields = Except.ok fields) (hC : fields.getCount = Except.ok cnt)
    (h0 : 0 ≤ cnt.Val)
    (hN : ∀ i : Nat, (i : Int) < cnt.Val → ∃ f nm, fields.callItem i = Except.ok f ∧
      f.getName = Except.ok nm ∧ nm.str = names i) :
    (Columns (Columns rc).2.1).1 = (Columns rc).1 ∧ (Columns (Columns rc).2.1).2.2 = [] := by
  rw [Columns_read rc fields cnt names hne hF hC h0 hN]
  have h : ¬ cnt.Val ≠ ((List.map names (List.range cnt.Val.toNat)).length : Int) := by
    simp only [List.length_map, List.length_range, ne_eq, not_not]
    omega
  simp only [Columns, h, if_false]
  exact ⟨trivial, trivial⟩

/-- C7 (amended): `Columns` decides by comparing the cached count with the length of the
cached name sequence, not with the live `Fields.Count`.  When the two agree it returns
the cached sequence and makes no call.  When they differ (as on a row set fresh from
`Query`) and the reads of `Fields`, `Count`, and each `Item(i)` and `Name` succeed, it
reads the names in index order `0..count-1` and returns the sequence just read, whose
length is the live count, and caches it. -/
theorem Columns_reads_names_when_cache_unset (rc : AdodbRows) :
    (rc.nc = rc.cols.length → Columns rc = (some rc.cols, rc, [])) ∧
    (∀ (fields : FieldsObj) (cnt : VARIANT) (names : Nat → String),
      rc.nc ≠ rc.cols.length → rc.rc.getFields = Except.ok fields →
      fields.getCount = Except.ok cnt → 0 ≤ cnt.Val →
      (∀ i : Nat, (i : Int) < cnt.Val → ∃ f nm, fields.callItem i = Except.ok f ∧
        f.getName = Except.ok nm ∧ nm.str = names i) →
      (Columns rc).1 = some ((List.range cnt.Val.toNat).map names) ∧
      ((List.range cnt.Val.toNat).map names).length = cnt.Val.toNat ∧
      (Columns rc).2.1.nc = cnt.Val ∧
      (Columns rc).2.1.cols = (List.range cnt.Val.toNat).map names ∧
      (Columns rc).2.2 =
        [Event.getProperty Obj.recordset "Fields", Event.getProperty Obj.fields "Count"]
          ++ ((List.range cnt.Val.toNat).map nameEvents).flatten
          ++ [Event.release Obj.fields]) := by
  constructor
  · intro h
    simp [Columns, h]
  · intro fields cnt names hne hF hC h0 hN
    rw [Columns_read rc fields cnt names hne hF hC h0 hN]
    simp

/-- Witness for C7 (amended): a fresh row set over the two-field recordset. -/
theorem Columns_reads_names_when_cache_unset_witness :
    (Columns ⟨twoFieldRecordset (Except.ok (namedField "name")), -1, []⟩).1 =
      some ((List.range 2).map (fun i => if i = 0 then "id" else "name")) ∧
    Columns ⟨twoFieldRecordset (Except.error ⟨5⟩), 2, ["id", "name"]⟩ =
      (some ["id", "name"], ⟨twoFieldRecordset (Except.error ⟨5⟩), 2, ["id", "name"]⟩, []) :=
  ⟨((Columns_reads_names_when_cache_unset
      ⟨twoFieldRecordset (Except.ok (namedField "name")), -1, []⟩).2
      ⟨Except.ok ⟨3, 2, "", none⟩, fun i => if i = 0 then Except.ok (namedField "id")
        else Except.ok (namedField "name")⟩
      ⟨3, 2, "", none⟩ (fun i => if i = 0 then "id" else "name")
      (by decide) rfl rfl (by decide)
      (by
        intro i hi
        have hi2 : i < 2 := by simpa using hi
        interval_cases i
        · exact ⟨_, _, rfl, rfl, rfl⟩
        · exact ⟨_, _, rfl, rfl, rfl⟩)).1,
    (Columns_reads_names_when_cache_unset
      ⟨twoFieldRecordset (Except.error ⟨5⟩), 2, ["id", "name"]⟩).1 rfl⟩
end Adodb
